import Mathlib

/-!
# Verification of the `rust-matrix-state-map` StateMap container

A shallow embedding of `src/lib.rs`: `StateMap` is a bucketed dictionary
from `(type, state_key)` pairs to values, with five buckets (well-known
empty-key types, membership, aliases, third-party invites, and a generic
two-level fallback).  Rust `HashMap`s are modelled as association lists;
the hash map's unique-key representation invariant becomes the `mapWF`
no-duplicate-keys predicate on these lists.
-/

set_option maxHeartbeats 1000000

namespace StateMapModel

/-! ## Association-list model of `HashMap` -/

/-- Lookup of the value at the first occurrence of a key (`HashMap::get`). -/
def mapGet {K V : Type} [DecidableEq K] (l : List (K × V)) (k : K) : Option V :=
  match l with
  | [] => none
  | (k2, v) :: rest => if k2 = k then some v else mapGet rest k

/-- Insert-or-replace (`HashMap::insert`): replaces the value at the first
occurrence of the key, or appends the binding if the key is absent. -/
def mapInsert {K V : Type} [DecidableEq K] (l : List (K × V)) (k : K) (v : V) :
    List (K × V) :=
  match l with
  | [] => [(k, v)]
  | (k2, v2) :: rest =>
      if k2 = k then (k2, v) :: rest else (k2, v2) :: mapInsert rest k v

/-- Removal (`HashMap::remove` / `Entry::remove`): drops the first occurrence
of the key. -/
def mapRemove {K V : Type} [DecidableEq K] (l : List (K × V)) (k : K) :
    List (K × V) :=
  match l with
  | [] => []
  | (k2, v2) :: rest => if k2 = k then rest else (k2, v2) :: mapRemove rest k

/-- Representation invariant of a `HashMap`: keys are pairwise distinct. -/
def mapWF {K V : Type} (l : List (K × V)) : Prop := (l.map Prod.fst).Nodup

theorem mapWF_nil {K V : Type} : mapWF ([] : List (K × V)) := List.nodup_nil

theorem mapGet_cons_self {K V : Type} [DecidableEq K] (rest : List (K × V)) (k : K) (v : V) :
    mapGet ((k, v) :: rest) k = some v := by
  simp [mapGet]

theorem mapGet_cons_ne {K V : Type} [DecidableEq K] (rest : List (K × V)) (k k2 : K)
    (v2 : V) (h : k2 ≠ k) : mapGet ((k2, v2) :: rest) k = mapGet rest k := by
  simp [mapGet, h]

theorem mapInsert_cons_self {K V : Type} [DecidableEq K] (rest : List (K × V)) (k : K)
    (v2 v : V) : mapInsert ((k, v2) :: rest) k v = (k, v) :: rest := by
  simp [mapInsert]

theorem mapInsert_cons_ne {K V : Type} [DecidableEq K] (rest : List (K × V)) (k k2 : K)
    (v2 v : V) (h : k2 ≠ k) :
    mapInsert ((k2, v2) :: rest) k v = (k2, v2) :: mapInsert rest k v := by
  simp [mapInsert, h]

theorem mapGet_insert_self {K V : Type} [DecidableEq K]
    (l : List (K × V)) (k : K) (v : V) : mapGet (mapInsert l k v) k = some v := by
  induction l with
  | nil => simp [mapInsert, mapGet]
  | cons p rest ih =>
      obtain ⟨k2, v2⟩ := p
      by_cases h : k2 = k <;> simp [mapInsert, mapGet, h, ih]

theorem mapGet_insert_ne {K V : Type} [DecidableEq K]
    (l : List (K × V)) (k k2 : K) (v : V) (hne : k2 ≠ k) :
    mapGet (mapInsert l k v) k2 = mapGet l k2 := by
  induction l with
  | nil => simp [mapInsert, mapGet, Ne.symm hne]
  | cons p rest ih =>
      obtain ⟨k3, v3⟩ := p
      by_cases h : k3 = k
      · subst h
        simp [mapInsert, mapGet, Ne.symm hne]
      · rw [mapInsert, if_neg h]
        by_cases h2 : k3 = k2
        · simp only [mapGet, if_pos h2]
        · simp only [mapGet, if_neg h2, ih]

theorem mapGet_eq_none_iff {K V : Type} [DecidableEq K]
    (l : List (K × V)) (k : K) :
    mapGet l k = none ↔ k ∉ l.map Prod.fst := by
  induction l with
  | nil => simp [mapGet]
  | cons p rest ih =>
      obtain ⟨k2, v2⟩ := p
      by_cases h : k2 = k
      · subst h; simp [mapGet]
      · simp [mapGet, h, ih, Ne.symm h]

theorem mem_of_mapGet {K V : Type} [DecidableEq K]
    (l : List (K × V)) (k : K) (v : V) (h : mapGet l k = some v) : (k, v) ∈ l := by
  induction l with
  | nil => simp [mapGet] at h
  | cons p rest ih =>
      obtain ⟨k2, v2⟩ := p
      by_cases h2 : k2 = k
      · subst h2; simp [mapGet] at h; simp [h.symm]
      · simp only [mapGet, if_neg h2] at h
        exact List.mem_cons_of_mem _ (ih h)

theorem mapGet_of_mem {K V : Type} [DecidableEq K]
    (l : List (K × V)) (k : K) (v : V) (hwf : mapWF l) (h : (k, v) ∈ l) :
    mapGet l k = some v := by
  induction l with
  | nil => simp at h
  | cons p rest ih =>
      obtain ⟨k2, v2⟩ := p
      rw [mapWF, List.map_cons, List.nodup_cons] at hwf
      rcases List.mem_cons.1 h with heq | hmem
      · injection heq with h1 h2
        subst h1; subst h2
        simp [mapGet]
      · have hne : k2 ≠ k := by
          intro he
          subst he
          exact hwf.1 (List.mem_map.2 ⟨(k2, v), hmem, rfl⟩)
        simp [mapGet, hne, ih hwf.2 hmem]

theorem keys_mapInsert {K V : Type} [DecidableEq K]
    (l : List (K × V)) (k : K) (v : V) :
    (mapInsert l k v).map Prod.fst =
      if (mapGet l k).isSome then l.map Prod.fst else l.map Prod.fst ++ [k] := by
  induction l with
  | nil => simp [mapInsert, mapGet]
  | cons p rest ih =>
      obtain ⟨k2, v2⟩ := p
      by_cases h : k2 = k
      · subst h; simp [mapInsert, mapGet]
      · simp only [mapInsert, if_neg h, List.map_cons, mapGet, ih]
        by_cases h2 : (mapGet rest k).isSome <;> simp [h, h2]

theorem mapWF_insert {K V : Type} [DecidableEq K]
    (l : List (K × V)) (k : K) (v : V) (hwf : mapWF l) :
    mapWF (mapInsert l k v) := by
  rw [mapWF, keys_mapInsert]
  by_cases h : (mapGet l k).isSome
  · simpa [h] using hwf
  · rw [if_neg h]
    have hk : k ∉ l.map Prod.fst := by
      rw [← mapGet_eq_none_iff]
      exact Option.not_isSome_iff_eq_none.1 h
    rw [List.nodup_append]
    exact ⟨hwf, List.nodup_singleton k,
      fun a ha hb => hk (List.mem_singleton.1 hb ▸ ha)⟩

theorem keys_mapRemove_sublist {K V : Type} [DecidableEq K]
    (l : List (K × V)) (k : K) :
    ((mapRemove l k).map Prod.fst).Sublist (l.map Prod.fst) := by
  induction l with
  | nil => simp [mapRemove]
  | cons p rest ih =>
      obtain ⟨k2, v2⟩ := p
      by_cases h : k2 = k
      · simp only [mapRemove, if_pos h, List.map_cons]
        exact (List.Sublist.refl _).cons _
      · simp only [mapRemove, if_neg h, List.map_cons]
        exact ih.cons₂ _

theorem mapWF_remove {K V : Type} [DecidableEq K]
    (l : List (K × V)) (k : K) (hwf : mapWF l) :
    mapWF (mapRemove l k) :=
  List.Nodup.sublist (keys_mapRemove_sublist l k) hwf

theorem mapGet_remove_self {K V : Type} [DecidableEq K]
    (l : List (K × V)) (k : K) (hwf : mapWF l) :
    mapGet (mapRemove l k) k = none := by
  induction l with
  | nil => simp [mapRemove, mapGet]
  | cons p rest ih =>
      obtain ⟨k2, v2⟩ := p
      rw [mapWF, List.map_cons, List.nodup_cons] at hwf
      by_cases h : k2 = k
      · rw [mapRemove, if_pos h]
        rw [mapGet_eq_none_iff]
        intro hmem
        exact hwf.1 (h ▸ hmem)
      · simp [mapRemove, mapGet, h, ih hwf.2]

theorem length_mapInsert {K V : Type} [DecidableEq K]
    (l : List (K × V)) (k : K) (v : V) :
    (mapInsert l k v).length =
      if (mapGet l k).isSome then l.length else l.length + 1 := by
  have h := congrArg List.length (keys_mapInsert l k v)
  rw [List.length_map] at h
  by_cases h2 : (mapGet l k).isSome
  · rw [if_pos h2] at h
    rw [if_pos h2, h, List.length_map]
  · rw [if_neg h2] at h
    rw [if_neg h2, h, List.length_append, List.length_map, List.length_singleton]

/-! ## Event type constants (`src/lib.rs` lines 14-42) -/

/-- The creation event type. -/
def TYPE_CREATE : String := "m.room.create"
/-- The power levels event type. -/
def TYPE_POWER_LEVELS : String := "m.room.power_levels"
/-- The join rules event type. -/
def TYPE_JOIN_RULES : String := "m.room.join_rules"
/-- The history visibility event type. -/
def TYPE_HISTORY_VISIBILITY : String := "m.room.history_visibility"
/-- The name event type. -/
def TYPE_NAME : String := "m.room.name"
/-- The topic event type. -/
def TYPE_TOPIC : String := "m.room.topic"
/-- The room avatar event type. -/
def TYPE_AVATAR : String := "m.room.avatar"
/-- The guest_access event type. -/
def TYPE_GUEST_ACCESS : String := "m.room.guest_access"
/-- The canonical_alias event type. -/
def TYPE_CANONICAL_ALIASES : String := "m.room.canonical_alias"
/-- The related_groups event type. -/
def TYPE_RELATED_GROUPS : String := "m.room.related_groups"
/-- The encryption event type. -/
def TYPE_ENCRYPTION : String := "m.room.encryption"
/-- The member event type. -/
def TYPE_MEMBERSHIP : String := "m.room.member"
/-- The aliases event type. -/
def TYPE_ALIASES : String := "m.room.aliases"
/-- The third_party_invite event type. -/
def TYPE_THIRD_PARTY_INVITE : String := "m.room.third_party_invite"

/-- Event types that are commonly used for state with empty state keys
(`src/lib.rs` lines 46-70). -/
inductive WellKnownEmptyKeys : Type where
  | Create
  | PowerLevels
  | JoinRules
  | HistoryVisibility
  | Name
  | Topic
  | Avatar
  | GuestAccess
  | CanonicalAliases
  | RelatedGroups
  | Encryption
deriving DecidableEq, Repr

/-- `WellKnownEmptyKeys::as_str` (`src/lib.rs` lines 74-88). -/
def WellKnownEmptyKeys.as_str : WellKnownEmptyKeys → String
  | .Create => TYPE_CREATE
  | .PowerLevels => TYPE_POWER_LEVELS
  | .JoinRules => TYPE_JOIN_RULES
  | .HistoryVisibility => TYPE_HISTORY_VISIBILITY
  | .Name => TYPE_NAME
  | .Topic => TYPE_TOPIC
  | .Avatar => TYPE_AVATAR
  | .GuestAccess => TYPE_GUEST_ACCESS
  | .CanonicalAliases => TYPE_CANONICAL_ALIASES
  | .RelatedGroups => TYPE_RELATED_GROUPS
  | .Encryption => TYPE_ENCRYPTION

/-- `WellKnownEmptyKeys::from_str` (`src/lib.rs` lines 91-106); a Rust
`match` on a `&str` scrutinee is a chain of string equality tests. -/
def WellKnownEmptyKeys.from_str (t : String) : Option WellKnownEmptyKeys :=
  if t = TYPE_CREATE then some .Create
  else if t = TYPE_POWER_LEVELS then some .PowerLevels
  else if t = TYPE_JOIN_RULES then some .JoinRules
  else if t = TYPE_HISTORY_VISIBILITY then some .HistoryVisibility
  else if t = TYPE_NAME then some .Name
  else if t = TYPE_TOPIC then some .Topic
  else if t = TYPE_AVATAR then some .Avatar
  else if t = TYPE_GUEST_ACCESS then some .GuestAccess
  else if t = TYPE_CANONICAL_ALIASES then some .CanonicalAliases
  else if t = TYPE_RELATED_GROUPS then some .RelatedGroups
  else if t = TYPE_ENCRYPTION then some .Encryption
  else none

open WellKnownEmptyKeys in
theorem from_str_as_str (k : WellKnownEmptyKeys) :
    WellKnownEmptyKeys.from_str k.as_str = some k := by
  cases k <;> rfl

theorem as_str_of_from_str (t : String) (k : WellKnownEmptyKeys)
    (h : WellKnownEmptyKeys.from_str t = some k) : k.as_str = t := by
  unfold WellKnownEmptyKeys.from_str at h
  split_ifs at h <;> injection h with h2 <;> subst h2 <;> simp_all [WellKnownEmptyKeys.as_str]

theorem as_str_injective (k1 k2 : WellKnownEmptyKeys)
    (h : k1.as_str = k2.as_str) : k1 = k2 := by
  have h1 := from_str_as_str k1
  rw [h, from_str_as_str] at h1
  injection h1 with h2
  exact h2.symm

theorem from_str_membership : WellKnownEmptyKeys.from_str TYPE_MEMBERSHIP = none := by
  decide

theorem from_str_aliases : WellKnownEmptyKeys.from_str TYPE_ALIASES = none := by
  decide

theorem from_str_invite : WellKnownEmptyKeys.from_str TYPE_THIRD_PARTY_INVITE = none := by
  decide

theorem as_str_ne_membership (k : WellKnownEmptyKeys) : k.as_str ≠ TYPE_MEMBERSHIP := by
  intro h
  have := from_str_as_str k
  rw [h, from_str_membership] at this
  exact Option.noConfusion this

theorem as_str_ne_aliases (k : WellKnownEmptyKeys) : k.as_str ≠ TYPE_ALIASES := by
  intro h
  have := from_str_as_str k
  rw [h, from_str_aliases] at this
  exact Option.noConfusion this

theorem as_str_ne_invite (k : WellKnownEmptyKeys) : k.as_str ≠ TYPE_THIRD_PARTY_INVITE := by
  intro h
  have := from_str_as_str k
  rw [h, from_str_invite] at this
  exact Option.noConfusion this

/-! ## The `StateMap` container (`src/lib.rs` lines 109-335) -/

/-- The five buckets of `StateMap<E>` (`src/lib.rs` lines 110-117), with each
`HashMap` modelled as an association list. -/
structure StateMap (E : Type) : Type where
  well_known : List (WellKnownEmptyKeys × E)
  membership : List (String × E)
  aliases : List (String × E)
  invites : List (String × E)
  others : List (String × List (String × E))
deriving DecidableEq, Repr

namespace StateMap

variable {E : Type}

/-- `StateMap::new`. -/
def new : StateMap E :=
  { well_known := [], membership := [], aliases := [], invites := [], others := [] }

/-- `StateMap::get_well_known`. -/
def get_well_known (m : StateMap E) (key : WellKnownEmptyKeys) : Option E :=
  mapGet m.well_known key

/-- `StateMap::get_aliases`. -/
def get_aliases (m : StateMap E) (server : String) : Option E :=
  mapGet m.aliases server

/-- `StateMap::get_membership`. -/
def get_membership (m : StateMap E) (user : String) : Option E :=
  mapGet m.membership user

/-- `StateMap::get_third_party_invites`. -/
def get_third_party_invites (m : StateMap E) (token : String) : Option E :=
  mapGet m.invites token

/-- `StateMap::get` (`src/lib.rs` lines 149-163): the early return on
`s == "" && from_str(t).is_some()` is folded into the scrutinee of the
outer match. -/
def get (m : StateMap E) (t s : String) : Option E :=
  match (if s = "" then WellKnownEmptyKeys.from_str t else none) with
  | some key => m.get_well_known key
  | none =>
      if t = TYPE_MEMBERSHIP then m.get_membership s
      else if t = TYPE_ALIASES then m.get_aliases s
      else if t = TYPE_THIRD_PARTY_INVITE then m.get_third_party_invites s
      else (mapGet m.others t).bind fun h => mapGet h s

/-- `StateMap::insert_well_known`. -/
def insert_well_known (m : StateMap E) (k : WellKnownEmptyKeys) (value : E) :
    StateMap E :=
  { m with well_known := mapInsert m.well_known k value }

/-- `StateMap::insert` (`src/lib.rs` lines 185-204); the `others` arm is
`entry(t).or_insert_with(HashMap::new).insert(s, value)`. -/
def insert (m : StateMap E) (t s : String) (value : E) : StateMap E :=
  match (if s = "" then WellKnownEmptyKeys.from_str t else none) with
  | some key => { m with well_known := mapInsert m.well_known key value }
  | none =>
      if t = TYPE_MEMBERSHIP then { m with membership := mapInsert m.membership s value }
      else if t = TYPE_ALIASES then { m with aliases := mapInsert m.aliases s value }
      else if t = TYPE_THIRD_PARTY_INVITE then { m with invites := mapInsert m.invites s value }
      else { m with others :=
              mapInsert m.others t (mapInsert ((mapGet m.others t).getD []) s value) }

/-- `StateMap::contains_key`. -/
def contains_key (m : StateMap E) (t s : String) : Bool :=
  (m.get t s).isSome

/-- `StateMap::iter` (`src/lib.rs` lines 232-256): the chained lazy iterator
over the five buckets, as the list of elements it yields in order. -/
def iter (m : StateMap E) : List ((String × String) × E) :=
  (m.well_known.map fun p => ((p.1.as_str, ""), p.2))
    ++ (m.membership.map fun p => ((TYPE_MEMBERSHIP, p.1), p.2))
    ++ (m.aliases.map fun p => ((TYPE_ALIASES, p.1), p.2))
    ++ (m.invites.map fun p => ((TYPE_THIRD_PARTY_INVITE, p.1), p.2))
    ++ (m.others.flatMap fun q => q.2.map fun p => ((q.1, p.1), p.2))

/-- `StateMap::iter_join_rules` (`src/lib.rs` lines 284-298): the well-known
join-rules entry (if any) chained with the `others` inner map stored under
`m.room.join_rules`. -/
def iter_join_rules (m : StateMap E) : List (String × E) :=
  ((mapGet m.well_known WellKnownEmptyKeys.JoinRules).toList.map fun e => ("", e))
    ++ ((mapGet m.others TYPE_JOIN_RULES).toList.flatMap fun h =>
          h.map fun p => (p.1, p.2))

/-- `StateMap::len` (`src/lib.rs` lines 323-330). -/
def len (m : StateMap E) : Nat :=
  m.well_known.length + m.membership.length + m.aliases.length + m.invites.length
    + (m.others.map fun q => q.2.length).sum

/-- `StateMap::is_empty` (`src/lib.rs` lines 332-334). -/
def is_empty (m : StateMap E) : Bool :=
  m.len == 0

/-- `StateMap::add_or_remove` (`src/lib.rs` lines 376-440): returns the
updated map together with the `Option<E>` result.  Each `match ... entry`
block becomes a match on the model-level lookup. -/
def add_or_remove [DecidableEq E] (m : StateMap E) (t s : String) (value : E) :
    StateMap E × Option E :=
  match (if s = "" then WellKnownEmptyKeys.from_str t else none) with
  | some key =>
      match mapGet m.well_known key with
      | some old =>
          if old ≠ value then
            ({ m with well_known := mapRemove m.well_known key }, some old)
          else (m, none)
      | none => ({ m with well_known := mapInsert m.well_known key value }, none)
  | none =>
      if t = TYPE_MEMBERSHIP then
        match mapGet m.membership s with
        | some old =>
            if old ≠ value then
              ({ m with membership := mapRemove m.membership s }, some old)
            else (m, none)
        | none => ({ m with membership := mapInsert m.membership s value }, none)
      else if t = TYPE_ALIASES then
        match mapGet m.aliases s with
        | some old =>
            if old ≠ value then
              ({ m with aliases := mapRemove m.aliases s }, some old)
            else (m, none)
        | none => ({ m with aliases := mapInsert m.aliases s value }, none)
      else if t = TYPE_THIRD_PARTY_INVITE then
        match mapGet m.invites s with
        | some old =>
            if old ≠ value then
              ({ m with invites := mapRemove m.invites s }, some old)
            else (m, none)
        | none => ({ m with invites := mapInsert m.invites s value }, none)
      else
        match mapGet m.others t with
        | some h =>
            match mapGet h s with
            | some old =>
                if old ≠ value then
                  ({ m with others := mapInsert m.others t (mapRemove h s) }, some old)
                else (m, none)
            | none =>
                ({ m with others := mapInsert m.others t (mapInsert h s value) }, none)
        | none => ({ m with others := mapInsert m.others t [(s, value)] }, none)

/-- `Extend for StateMap` (`src/lib.rs` lines 473-499): a `for` loop calling
`insert` on each `((type, state_key), value)` pair in sequence order. -/
def extend (m : StateMap E) (l : List ((String × String) × E)) : StateMap E :=
  l.foldl (fun acc p => acc.insert p.1.1 p.1.2 p.2) m

/-- `FromIterator for StateMap` (`src/lib.rs` lines 443-471): a `for` loop
calling `insert` on each pair, starting from `StateMap::new`. -/
def from_iter (l : List ((String × String) × E)) : StateMap E :=
  l.foldl (fun acc p => acc.insert p.1.1 p.1.2 p.2) StateMap.new

/-- Representation invariant of a reachable `StateMap`: every bucket is a
well-formed hash map, and the `others` bucket holds no key that the
classifier would have routed to one of the four specialised buckets. -/
def WF (m : StateMap E) : Prop :=
  mapWF m.well_known ∧ mapWF m.membership ∧ mapWF m.aliases ∧ mapWF m.invites ∧
    mapWF m.others ∧
    ∀ q ∈ m.others, mapWF q.2 ∧
      q.1 ≠ TYPE_MEMBERSHIP ∧ q.1 ≠ TYPE_ALIASES ∧ q.1 ≠ TYPE_THIRD_PARTY_INVITE ∧
      ∀ p ∈ q.2, ¬(p.1 = "" ∧ (WellKnownEmptyKeys.from_str q.1).isSome)

theorem WF_new : (new : StateMap E).WF := by
  refine ⟨mapWF_nil, mapWF_nil, mapWF_nil, mapWF_nil, mapWF_nil, ?_⟩
  intro q hq
  simp [new] at hq

instance instDecidableWF (m : StateMap E) : Decidable m.WF := by
  unfold WF mapWF
  infer_instance

theorem route_scrutinee_none_iff (t s : String) :
    (if s = "" then WellKnownEmptyKeys.from_str t else none) = none ↔
      ¬(s = "" ∧ (WellKnownEmptyKeys.from_str t).isSome) := by
  by_cases hs : s = ""
  · simp [hs, Option.not_isSome_iff_eq_none]
  · simp [hs]

theorem mem_mapInsert {K V : Type} [DecidableEq K] (l : List (K × V)) (k : K) (v : V)
    (q : K × V) (h : q ∈ mapInsert l k v) : q ∈ l ∨ q = (k, v) := by
  induction l with
  | nil =>
      simp [mapInsert] at h
      right
      exact h
  | cons p rest ih =>
      obtain ⟨k2, v2⟩ := p
      by_cases h2 : k2 = k
      · rw [mapInsert, if_pos h2] at h
        rcases List.mem_cons.1 h with he | hm
        · right; rw [he, h2]
        · left; exact List.mem_cons_of_mem _ hm
      · rw [mapInsert, if_neg h2] at h
        rcases List.mem_cons.1 h with he | hm
        · left; rw [he]; simp
        · rcases ih hm with hl | hr
          · left; exact List.mem_cons_of_mem _ hl
          · right; exact hr

/-- Two maps agree on `get (t, s)` as soon as their buckets agree at the slots
the classifier can route `(t, s)` to. -/
theorem get_congr (m m2 : StateMap E) (t s : String)
    (hw : ∀ k, (if s = "" then WellKnownEmptyKeys.from_str t else none) = some k →
      mapGet m2.well_known k = mapGet m.well_known k)
    (hm : t = TYPE_MEMBERSHIP → mapGet m2.membership s = mapGet m.membership s)
    (ha : t = TYPE_ALIASES → mapGet m2.aliases s = mapGet m.aliases s)
    (hi : t = TYPE_THIRD_PARTY_INVITE → mapGet m2.invites s = mapGet m.invites s)
    (ho : ((mapGet m2.others t).bind fun h => mapGet h s) =
      ((mapGet m.others t).bind fun h => mapGet h s)) :
    m2.get t s = m.get t s := by
  unfold get get_well_known get_membership get_aliases get_third_party_invites
  cases hc : (if s = "" then WellKnownEmptyKeys.from_str t else none) with
  | some k => exact hw k hc
  | none =>
      split_ifs with h1 h2 h3
      · exact hm h1
      · exact ha h2
      · exact hi h3
      · exact ho

theorem get_insert_self (m : StateMap E) (t s : String) (v : E) :
    (m.insert t s v).get t s = some v := by
  unfold insert get get_well_known get_membership get_aliases get_third_party_invites
  cases hc : (if s = "" then WellKnownEmptyKeys.from_str t else none) with
  | some k => simp [mapGet_insert_self]
  | none =>
      split_ifs with h1 h2 h3 <;> simp [mapGet_insert_self]

theorem get_insert_ne (m : StateMap E) (t s t2 s2 : String) (v : E)
    (hne : (t2, s2) ≠ (t, s)) :
    (m.insert t s v).get t2 s2 = m.get t2 s2 := by
  cases hc : (if s = "" then WellKnownEmptyKeys.from_str t else none) with
  | some k =>
      have hs : s = "" := by
        by_cases h : s = ""
        · exact h
        · simp [h] at hc
      have hf : WellKnownEmptyKeys.from_str t = some k := by
        rw [if_pos hs] at hc
        exact hc
      have hins : m.insert t s v = { m with well_known := mapInsert m.well_known k v } := by
        unfold insert
        rw [hc]
      rw [hins]
      apply get_congr
      · intro k2 hc2
        have hs2 : s2 = "" := by
          by_cases h : s2 = ""
          · exact h
          · simp [h] at hc2
        have hf2 : WellKnownEmptyKeys.from_str t2 = some k2 := by
          rw [if_pos hs2] at hc2
          exact hc2
        have hkne : k2 ≠ k := by
          intro he
          subst he
          have ht1 := as_str_of_from_str t k2 hf
          have ht2 := as_str_of_from_str t2 k2 hf2
          apply hne
          have ht : t2 = t := by rw [← ht2, ht1]
          rw [ht, hs, hs2]

        exact mapGet_insert_ne _ _ _ _ hkne
      · intro _; rfl
      · intro _; rfl
      · intro _; rfl
      · rfl
  | none =>
      by_cases h1 : t = TYPE_MEMBERSHIP
      · have hins : m.insert t s v = { m with membership := mapInsert m.membership s v } := by
          unfold insert
          rw [hc, if_pos h1]
        rw [hins]
        apply get_congr
        · intro _ _; rfl
        · intro h1b
          have hsne : s2 ≠ s := by
            intro he
            exact hne (by rw [he, h1b, h1])
          exact mapGet_insert_ne _ _ _ _ hsne
        · intro _; rfl
        · intro _; rfl
        · rfl
      · by_cases h2 : t = TYPE_ALIASES
        · have hins : m.insert t s v = { m with aliases := mapInsert m.aliases s v } := by
            unfold insert
            rw [hc, if_neg h1, if_pos h2]
          rw [hins]
          apply get_congr
          · intro _ _; rfl
          · intro _; rfl
          · intro h2b
            have hsne : s2 ≠ s := by
              intro he
              exact hne (by rw [he, h2b, h2])
            exact mapGet_insert_ne _ _ _ _ hsne
          · intro _; rfl
          · rfl
        · by_cases h3 : t = TYPE_THIRD_PARTY_INVITE
          · have hins : m.insert t s v = { m with invites := mapInsert m.invites s v } := by
              unfold insert
              rw [hc, if_neg h1, if_neg h2, if_pos h3]
            rw [hins]
            apply get_congr
            · intro _ _; rfl
            · intro _; rfl
            · intro _; rfl
            · intro h3b
              have hsne : s2 ≠ s := by
                intro he
                exact hne (by rw [he, h3b, h3])
              exact mapGet_insert_ne _ _ _ _ hsne
            · rfl
          · have hins : m.insert t s v = { m with others := mapInsert m.others t (mapInsert ((mapGet m.others t).getD []) s v) } := by
              unfold insert
              rw [hc, if_neg h1, if_neg h2, if_neg h3]
            rw [hins]
            apply get_congr
            · intro _ _; rfl
            · intro _; rfl
            · intro _; rfl
            · intro _; rfl
            · by_cases ht2 : t2 = t
              · subst ht2
                have hsne : s2 ≠ s := by
                  intro he
                  exact hne (by rw [he])
                rw [mapGet_insert_self]
                cases hgo : mapGet m.others t2 with
                | some hh =>
                    simp only [hgo, Option.getD_some, Option.some_bind]
                    exact mapGet_insert_ne _ _ _ _ hsne
                | none =>
                    simp only [hgo, Option.getD_none, Option.some_bind, Option.none_bind]
                    rw [mapGet_insert_ne _ _ _ _ hsne]
                    rfl
              · rw [mapGet_insert_ne _ _ _ _ ht2]

theorem WF_insert (m : StateMap E) (t s : String) (v : E) (hwf : m.WF) :
    (m.insert t s v).WF := by
  unfold WF at hwf ⊢
  obtain ⟨hw, hm, ha, hi, ho, hoq⟩ := hwf
  unfold insert
  cases hc : (if s = "" then WellKnownEmptyKeys.from_str t else none) with
  | some k => exact ⟨mapWF_insert _ _ _ hw, hm, ha, hi, ho, hoq⟩
  | none =>
      have hns : ¬(s = "" ∧ (WellKnownEmptyKeys.from_str t).isSome) :=
        (route_scrutinee_none_iff t s).1 hc
      split_ifs with h1 h2 h3
      · exact ⟨hw, mapWF_insert _ _ _ hm, ha, hi, ho, hoq⟩
      · exact ⟨hw, hm, mapWF_insert _ _ _ ha, hi, ho, hoq⟩
      · exact ⟨hw, hm, ha, mapWF_insert _ _ _ hi, ho, hoq⟩
      · refine ⟨hw, hm, ha, hi, mapWF_insert _ _ _ ho, ?_⟩
        intro q hq
        rcases mem_mapInsert _ _ _ _ hq with hql | hqe
        · exact hoq q hql
        · subst hqe
          refine ⟨?_, h1, h2, h3, ?_⟩
          · apply mapWF_insert
            cases hgo : mapGet m.others t with
            | some hh =>
                have h4 := hoq (t, hh) (mem_of_mapGet _ _ _ hgo)
                simpa [hgo] using h4.1
            | none => simpa [hgo] using (mapWF_nil : mapWF ([] : List (String × E)))
          · intro p hp
            rcases mem_mapInsert _ _ _ _ hp with hpl | hpe
            · cases hgo : mapGet m.others t with
              | some hh =>
                  have h4 := hoq (t, hh) (mem_of_mapGet _ _ _ hgo)
                  rw [hgo] at hpl
                  exact h4.2.2.2.2 p (by simpa using hpl)
              | none =>
                  rw [hgo] at hpl
                  simp at hpl
            · subst hpe
              simpa using hns

theorem get_route_wk (m : StateMap E) (t s : String) (k : WellKnownEmptyKeys)
    (hc : (if s = "" then WellKnownEmptyKeys.from_str t else none) = some k) :
    m.get t s = mapGet m.well_known k := by
  unfold get get_well_known
  rw [hc]

theorem get_route_mem (m : StateMap E) (t s : String)
    (hc : (if s = "" then WellKnownEmptyKeys.from_str t else none) = none)
    (h1 : t = TYPE_MEMBERSHIP) :
    m.get t s = mapGet m.membership s := by
  unfold get get_membership
  rw [hc, if_pos h1]

theorem get_route_alias (m : StateMap E) (t s : String)
    (hc : (if s = "" then WellKnownEmptyKeys.from_str t else none) = none)
    (h1 : t ≠ TYPE_MEMBERSHIP) (h2 : t = TYPE_ALIASES) :
    m.get t s = mapGet m.aliases s := by
  unfold get get_aliases
  rw [hc, if_neg h1, if_pos h2]

theorem get_route_inv (m : StateMap E) (t s : String)
    (hc : (if s = "" then WellKnownEmptyKeys.from_str t else none) = none)
    (h1 : t ≠ TYPE_MEMBERSHIP) (h2 : t ≠ TYPE_ALIASES) (h3 : t = TYPE_THIRD_PARTY_INVITE) :
    m.get t s = mapGet m.invites s := by
  unfold get get_third_party_invites
  rw [hc, if_neg h1, if_neg h2, if_pos h3]

theorem get_route_other (m : StateMap E) (t s : String)
    (hc : (if s = "" then WellKnownEmptyKeys.from_str t else none) = none)
    (h1 : t ≠ TYPE_MEMBERSHIP) (h2 : t ≠ TYPE_ALIASES) (h3 : t ≠ TYPE_THIRD_PARTY_INVITE) :
    m.get t s = ((mapGet m.others t).bind fun h => mapGet h s) := by
  unfold get
  rw [hc, if_neg h1, if_neg h2, if_neg h3]

theorem get_new (t s : String) : (new : StateMap E).get t s = none := by
  unfold new get get_well_known get_membership get_aliases get_third_party_invites
  cases hc : (if s = "" then WellKnownEmptyKeys.from_str t else none) with
  | some k => simp [mapGet]
  | none => split_ifs <;> simp [mapGet]

theorem sum_insert_others (l : List (String × List (String × E))) (t s : String) (v : E) :
    ((mapInsert l t (mapInsert ((mapGet l t).getD []) s v)).map fun q => q.2.length).sum =
      (l.map fun q => q.2.length).sum +
        (if (mapGet ((mapGet l t).getD []) s).isSome then 0 else 1) := by
  induction l with
  | nil => simp [mapInsert, mapGet]
  | cons p rest ih =>
      obtain ⟨t2, h2⟩ := p
      by_cases h : t2 = t
      · subst h
        rw [mapGet_cons_self, Option.getD_some, mapInsert_cons_self]
        simp only [List.map_cons, List.sum_cons, length_mapInsert]
        by_cases h4 : (mapGet h2 s).isSome <;> simp [h4] <;> omega
      · rw [mapGet_cons_ne _ _ _ _ h, mapInsert_cons_ne _ _ _ _ _ h]
        simp only [List.map_cons, List.sum_cons, ih]
        omega

theorem len_insert (m : StateMap E) (t s : String) (v : E) :
    (m.insert t s v).len = if (m.get t s).isSome then m.len else m.len + 1 := by
  cases hc : (if s = "" then WellKnownEmptyKeys.from_str t else none) with
  | some k =>
      have hins : m.insert t s v = { m with well_known := mapInsert m.well_known k v } := by
        unfold insert
        rw [hc]
      rw [hins, get_route_wk m t s k hc]
      unfold len
      simp only [length_mapInsert]
      by_cases h4 : (mapGet m.well_known k).isSome <;> simp [h4] <;> omega
  | none =>
      by_cases h1 : t = TYPE_MEMBERSHIP
      · have hins : m.insert t s v = { m with membership := mapInsert m.membership s v } := by
          unfold insert
          rw [hc, if_pos h1]
        rw [hins, get_route_mem m t s hc h1]
        unfold len
        simp only [length_mapInsert]
        by_cases h4 : (mapGet m.membership s).isSome <;> simp [h4] <;> omega
      · by_cases h2 : t = TYPE_ALIASES
        · have hins : m.insert t s v = { m with aliases := mapInsert m.aliases s v } := by
            unfold insert
            rw [hc, if_neg h1, if_pos h2]
          rw [hins, get_route_alias m t s hc h1 h2]
          unfold len
          simp only [length_mapInsert]
          by_cases h4 : (mapGet m.aliases s).isSome <;> simp [h4] <;> omega
        · by_cases h3 : t = TYPE_THIRD_PARTY_INVITE
          · have hins : m.insert t s v = { m with invites := mapInsert m.invites s v } := by
              unfold insert
              rw [hc, if_neg h1, if_neg h2, if_pos h3]
            rw [hins, get_route_inv m t s hc h1 h2 h3]
            unfold len
            simp only [length_mapInsert]
            by_cases h4 : (mapGet m.invites s).isSome <;> simp [h4] <;> omega
          · have hins : m.insert t s v = { m with others := mapInsert m.others t (mapInsert ((mapGet m.others t).getD []) s v) } := by
              unfold insert
              rw [hc, if_neg h1, if_neg h2, if_neg h3]
            rw [hins, get_route_other m t s hc h1 h2 h3]
            unfold len
            simp only [sum_insert_others]
            cases hgo : mapGet m.others t with
            | some hh =>
                simp only [hgo, Option.getD_some, Option.some_bind]
                by_cases h4 : (mapGet hh s).isSome <;> simp [h4] <;> omega
            | none =>
                simp only [hgo, Option.getD_none, Option.none_bind]
                simp [mapGet]
                omega

theorem len_eq_iter_length (m : StateMap E) : m.len = m.iter.length := by
  unfold len iter
  simp only [List.length_append, List.length_map, List.length_flatMap, Function.comp_def]

section AddOrRemove

variable [DecidableEq E]

theorem aor_route_wk (m : StateMap E) (t s : String) (v : E) (k : WellKnownEmptyKeys)
    (hc : (if s = "" then WellKnownEmptyKeys.from_str t else none) = some k) :
    m.add_or_remove t s v =
      match mapGet m.well_known k with
      | some old =>
          if old ≠ v then ({ m with well_known := mapRemove m.well_known k }, some old)
          else (m, none)
      | none => ({ m with well_known := mapInsert m.well_known k v }, none) := by
  unfold add_or_remove
  rw [hc]

theorem aor_route_mem (m : StateMap E) (t s : String) (v : E)
    (hc : (if s = "" then WellKnownEmptyKeys.from_str t else none) = none)
    (h1 : t = TYPE_MEMBERSHIP) :
    m.add_or_remove t s v =
      match mapGet m.membership s with
      | some old =>
          if old ≠ v then ({ m with membership := mapRemove m.membership s }, some old)
          else (m, none)
      | none => ({ m with membership := mapInsert m.membership s v }, none) := by
  unfold add_or_remove
  rw [hc, if_pos h1]

theorem aor_route_alias (m : StateMap E) (t s : String) (v : E)
    (hc : (if s = "" then WellKnownEmptyKeys.from_str t else none) = none)
    (h1 : t ≠ TYPE_MEMBERSHIP) (h2 : t = TYPE_ALIASES) :
    m.add_or_remove t s v =
      match mapGet m.aliases s with
      | some old =>
          if old ≠ v then ({ m with aliases := mapRemove m.aliases s }, some old)
          else (m, none)
      | none => ({ m with aliases := mapInsert m.aliases s v }, none) := by
  unfold add_or_remove
  rw [hc, if_neg h1, if_pos h2]

theorem aor_route_inv (m : StateMap E) (t s : String) (v : E)
    (hc : (if s = "" then WellKnownEmptyKeys.from_str t else none) = none)
    (h1 : t ≠ TYPE_MEMBERSHIP) (h2 : t ≠ TYPE_ALIASES) (h3 : t = TYPE_THIRD_PARTY_INVITE) :
    m.add_or_remove t s v =
      match mapGet m.invites s with
      | some old =>
          if old ≠ v then ({ m with invites := mapRemove m.invites s }, some old)
          else (m, none)
      | none => ({ m with invites := mapInsert m.invites s v }, none) := by
  unfold add_or_remove
  rw [hc, if_neg h1, if_neg h2, if_pos h3]

theorem aor_route_other (m : StateMap E) (t s : String) (v : E)
    (hc : (if s = "" then WellKnownEmptyKeys.from_str t else none) = none)
    (h1 : t ≠ TYPE_MEMBERSHIP) (h2 : t ≠ TYPE_ALIASES) (h3 : t ≠ TYPE_THIRD_PARTY_INVITE) :
    m.add_or_remove t s v =
      match mapGet m.others t with
      | some h =>
          match mapGet h s with
          | some old =>
              if old ≠ v then
                ({ m with others := mapInsert m.others t (mapRemove h s) }, some old)
              else (m, none)
          | none => ({ m with others := mapInsert m.others t (mapInsert h s v) }, none)
      | none => ({ m with others := mapInsert m.others t [(s, v)] }, none) := by
  unfold add_or_remove
  rw [hc, if_neg h1, if_neg h2, if_neg h3]

theorem add_or_remove_agree (m : StateMap E) (t s : String) (v : E)
    (h : m.get t s = some v) : m.add_or_remove t s v = (m, none) := by
  cases hc : (if s = "" then WellKnownEmptyKeys.from_str t else none) with
  | some k =>
      rw [get_route_wk m t s k hc] at h
      rw [aor_route_wk m t s v k hc, h]
      simp
  | none =>
      by_cases h1 : t = TYPE_MEMBERSHIP
      · rw [get_route_mem m t s hc h1] at h
        rw [aor_route_mem m t s v hc h1, h]
        simp
      · by_cases h2 : t = TYPE_ALIASES
        · rw [get_route_alias m t s hc h1 h2] at h
          rw [aor_route_alias m t s v hc h1 h2, h]
          simp
        · by_cases h3 : t = TYPE_THIRD_PARTY_INVITE
          · rw [get_route_inv m t s hc h1 h2 h3] at h
            rw [aor_route_inv m t s v hc h1 h2 h3, h]
            simp
          · rw [get_route_other m t s hc h1 h2 h3] at h
            rw [aor_route_other m t s v hc h1 h2 h3]
            cases hgo : mapGet m.others t with
            | some hh =>
                rw [hgo, Option.some_bind] at h
                simp [h]
            | none =>
                rw [hgo] at h
                simp at h

theorem add_or_remove_vacant (m : StateMap E) (t s : String) (v : E)
    (h : m.get t s = none) : m.add_or_remove t s v = (m.insert t s v, none) := by
  cases hc : (if s = "" then WellKnownEmptyKeys.from_str t else none) with
  | some k =>
      rw [get_route_wk m t s k hc] at h
      rw [aor_route_wk m t s v k hc, h]
      have hins : m.insert t s v = { m with well_known := mapInsert m.well_known k v } := by
        unfold insert
        rw [hc]
      rw [hins]
  | none =>
      by_cases h1 : t = TYPE_MEMBERSHIP
      · rw [get_route_mem m t s hc h1] at h
        rw [aor_route_mem m t s v hc h1, h]
        have hins : m.insert t s v = { m with membership := mapInsert m.membership s v } := by
          unfold insert
          rw [hc, if_pos h1]
        rw [hins]
      · by_cases h2 : t = TYPE_ALIASES
        · rw [get_route_alias m t s hc h1 h2] at h
          rw [aor_route_alias m t s v hc h1 h2, h]
          have hins : m.insert t s v = { m with aliases := mapInsert m.aliases s v } := by
            unfold insert
            rw [hc, if_neg h1, if_pos h2]
          rw [hins]
        · by_cases h3 : t = TYPE_THIRD_PARTY_INVITE
          · rw [get_route_inv m t s hc h1 h2 h3] at h
            rw [aor_route_inv m t s v hc h1 h2 h3, h]
            have hins : m.insert t s v = { m with invites := mapInsert m.invites s v } := by
              unfold insert
              rw [hc, if_neg h1, if_neg h2, if_pos h3]
            rw [hins]
          · rw [get_route_other m t s hc h1 h2 h3] at h
            rw [aor_route_other m t s v hc h1 h2 h3]
            have hins : m.insert t s v = { m with others := mapInsert m.others t (mapInsert ((mapGet m.others t).getD []) s v) } := by
              unfold insert
              rw [hc, if_neg h1, if_neg h2, if_neg h3]
            rw [hins]
            cases hgo : mapGet m.others t with
            | some hh =>
                rw [hgo, Option.some_bind] at h
                simp [h]
            | none =>
                simp [mapInsert]

theorem add_or_remove_conflict (m : StateMap E) (t s : String) (v1 v2 : E)
    (hwf : m.WF) (h : m.get t s = some v1) (hne : v2 ≠ v1) :
    (m.add_or_remove t s v2).2 = some v1 ∧
      (m.add_or_remove t s v2).1.get t s = none := by
  obtain ⟨hw, hm, ha, hi, ho, hoq⟩ := hwf
  have hcond : v1 ≠ v2 := fun he => hne he.symm
  cases hc : (if s = "" then WellKnownEmptyKeys.from_str t else none) with
  | some k =>
      rw [get_route_wk m t s k hc] at h
      rw [aor_route_wk m t s v2 k hc]
      simp only [h, if_pos hcond]
      refine ⟨trivial, ?_⟩
      rw [get_route_wk _ t s k hc]
      exact mapGet_remove_self _ _ hw
  | none =>
      by_cases h1 : t = TYPE_MEMBERSHIP
      · rw [get_route_mem m t s hc h1] at h
        rw [aor_route_mem m t s v2 hc h1]
        simp only [h, if_pos hcond]
        refine ⟨trivial, ?_⟩
        rw [get_route_mem _ t s hc h1]
        exact mapGet_remove_self _ _ hm
      · by_cases h2 : t = TYPE_ALIASES
        · rw [get_route_alias m t s hc h1 h2] at h
          rw [aor_route_alias m t s v2 hc h1 h2]
          simp only [h, if_pos hcond]
          refine ⟨trivial, ?_⟩
          rw [get_route_alias _ t s hc h1 h2]
          exact mapGet_remove_self _ _ ha
        · by_cases h3 : t = TYPE_THIRD_PARTY_INVITE
          · rw [get_route_inv m t s hc h1 h2 h3] at h
            rw [aor_route_inv m t s v2 hc h1 h2 h3]
            simp only [h, if_pos hcond]
            refine ⟨trivial, ?_⟩
            rw [get_route_inv _ t s hc h1 h2 h3]
            exact mapGet_remove_self _ _ hi
          · rw [get_route_other m t s hc h1 h2 h3] at h
            rw [aor_route_other m t s v2 hc h1 h2 h3]
            cases hgo : mapGet m.others t with
            | some hh =>
                rw [hgo, Option.some_bind] at h
                have hwfh : mapWF hh := (hoq (t, hh) (mem_of_mapGet _ _ _ hgo)).1
                simp only [h, if_pos hcond]
                refine ⟨trivial, ?_⟩
                rw [get_route_other _ t s hc h1 h2 h3]
                simp only [mapGet_insert_self, Option.some_bind]
                exact mapGet_remove_self _ _ hwfh
            | none =>
                rw [hgo] at h
                simp at h

end AddOrRemove

theorem scrut_eq_some (t s : String) (k : WellKnownEmptyKeys)
    (hc : (if s = "" then WellKnownEmptyKeys.from_str t else none) = some k) :
    s = "" ∧ WellKnownEmptyKeys.from_str t = some k := by
  by_cases h : s = ""
  · rw [if_pos h] at hc
    exact ⟨h, hc⟩
  · rw [if_neg h] at hc
    exact absurd hc (by simp)

theorem scrut_of_wk (k : WellKnownEmptyKeys) :
    (if ("" : String) = "" then WellKnownEmptyKeys.from_str k.as_str else none) = some k := by
  rw [if_pos rfl, from_str_as_str]

theorem scrut_mem_none (s : String) :
    (if s = "" then WellKnownEmptyKeys.from_str TYPE_MEMBERSHIP else none) = none := by
  by_cases h : s = "" <;> simp [h, from_str_membership]

theorem scrut_alias_none (s : String) :
    (if s = "" then WellKnownEmptyKeys.from_str TYPE_ALIASES else none) = none := by
  by_cases h : s = "" <;> simp [h, from_str_aliases]

theorem scrut_inv_none (s : String) :
    (if s = "" then WellKnownEmptyKeys.from_str TYPE_THIRD_PARTY_INVITE else none) = none := by
  by_cases h : s = "" <;> simp [h, from_str_invite]

/-- An entry is yielded by `iter` exactly when `get` returns it. -/
theorem mem_iter_iff (m : StateMap E) (hwf : m.WF) (t s : String) (v : E) :
    ((t, s), v) ∈ m.iter ↔ m.get t s = some v := by
  obtain ⟨hw, hm, ha, hi, ho, hoq⟩ := hwf
  unfold iter
  simp only [List.mem_append, List.mem_map, List.mem_flatMap]
  constructor
  · rintro ((((⟨⟨k, v2⟩, hp, he⟩ | ⟨⟨u, v2⟩, hp, he⟩) | ⟨⟨sv, v2⟩, hp, he⟩) |
      ⟨⟨tk, v2⟩, hp, he⟩) | ⟨⟨tq, hh⟩, hq, ⟨sp, vp⟩, hp, he⟩)
    · simp only [Prod.mk.injEq] at he
      obtain ⟨⟨he1, he2⟩, he3⟩ := he
      subst he1
      subst he2
      subst he3
      rw [get_route_wk m _ _ k (scrut_of_wk k)]
      exact mapGet_of_mem _ _ _ hw hp
    · simp only [Prod.mk.injEq] at he
      obtain ⟨⟨he1, he2⟩, he3⟩ := he
      subst he1
      subst he2
      subst he3
      rw [get_route_mem m _ _ (scrut_mem_none u) rfl]
      exact mapGet_of_mem _ _ _ hm hp
    · simp only [Prod.mk.injEq] at he
      obtain ⟨⟨he1, he2⟩, he3⟩ := he
      subst he1
      subst he2
      subst he3
      rw [get_route_alias m _ _ (scrut_alias_none sv) (by decide) rfl]
      exact mapGet_of_mem _ _ _ ha hp
    · simp only [Prod.mk.injEq] at he
      obtain ⟨⟨he1, he2⟩, he3⟩ := he
      subst he1
      subst he2
      subst he3
      rw [get_route_inv m _ _ (scrut_inv_none tk) (by decide) (by decide) rfl]
      exact mapGet_of_mem _ _ _ hi hp
    · simp only [Prod.mk.injEq] at he
      obtain ⟨⟨he1, he2⟩, he3⟩ := he
      subst he1
      subst he2
      subst he3
      obtain ⟨hwfh, hn1, hn2, hn3, hkeys⟩ := hoq (tq, hh) hq
      have hc : (if sp = "" then WellKnownEmptyKeys.from_str tq else none) = none :=
        (route_scrutinee_none_iff tq sp).2 (hkeys (sp, vp) hp)
      rw [get_route_other m _ _ hc hn1 hn2 hn3, mapGet_of_mem _ _ _ ho hq,
        Option.some_bind]
      exact mapGet_of_mem _ _ _ hwfh hp
  · intro hget
    cases hc : (if s = "" then WellKnownEmptyKeys.from_str t else none) with
    | some k =>
        obtain ⟨hs, hf⟩ := scrut_eq_some t s k hc
        rw [get_route_wk m t s k hc] at hget
        left; left; left; left
        refine ⟨(k, v), mem_of_mapGet _ _ _ hget, ?_⟩
        rw [Prod.mk.injEq, Prod.mk.injEq]
        exact ⟨⟨as_str_of_from_str t k hf, hs.symm⟩, rfl⟩
    | none =>
        by_cases h1 : t = TYPE_MEMBERSHIP
        · rw [get_route_mem m t s hc h1] at hget
          left; left; left; right
          exact ⟨(s, v), mem_of_mapGet _ _ _ hget, by rw [h1]⟩
        · by_cases h2 : t = TYPE_ALIASES
          · rw [get_route_alias m t s hc h1 h2] at hget
            left; left; right
            exact ⟨(s, v), mem_of_mapGet _ _ _ hget, by rw [h2]⟩
          · by_cases h3 : t = TYPE_THIRD_PARTY_INVITE
            · rw [get_route_inv m t s hc h1 h2 h3] at hget
              left; right
              exact ⟨(s, v), mem_of_mapGet _ _ _ hget, by rw [h3]⟩
            · rw [get_route_other m t s hc h1 h2 h3] at hget
              right
              cases hgo : mapGet m.others t with
              | some hh =>
                  rw [hgo, Option.some_bind] at hget
                  exact ⟨(t, hh), mem_of_mapGet _ _ _ hgo,
                    (s, v), mem_of_mapGet _ _ _ hget, rfl⟩
              | none =>
                  rw [hgo] at hget
                  simp at hget

theorem nodup_tag_keys {A : Type} (tag : String) (l : List (String × A)) (h : mapWF l) :
    ((l.map fun p => ((tag, p.1), p.2)).map Prod.fst).Nodup := by
  rw [List.map_map]
  have he : ((Prod.fst ∘ fun p : String × A => ((tag, p.1), p.2)) : String × A → String × String)
      = (fun k => (tag, k)) ∘ Prod.fst := rfl
  rw [he, ← List.map_map]
  refine List.Nodup.map ?_ h
  intro a b hab
  simpa using congrArg Prod.snd hab

theorem nodup_wk_keys (l : List (WellKnownEmptyKeys × E)) (h : mapWF l) :
    ((l.map fun p => ((p.1.as_str, ""), p.2)).map Prod.fst).Nodup := by
  rw [List.map_map]
  have he : ((Prod.fst ∘ fun p : WellKnownEmptyKeys × E => ((p.1.as_str, ""), p.2)) :
      WellKnownEmptyKeys × E → String × String)
      = (fun k : WellKnownEmptyKeys => (k.as_str, "")) ∘ Prod.fst := rfl
  rw [he, ← List.map_map]
  refine List.Nodup.map ?_ h
  intro a b hab
  exact as_str_injective a b (congrArg Prod.fst hab)

theorem nodup_others_keys (l : List (String × List (String × E))) (ho : mapWF l)
    (hin : ∀ q ∈ l, mapWF q.2) :
    (((l.flatMap fun q => q.2.map fun p => ((q.1, p.1), p.2)).map Prod.fst)).Nodup := by
  rw [List.map_flatMap]
  rw [List.nodup_flatMap]
  constructor
  · intro q hq
    exact nodup_tag_keys q.1 q.2 (hin q hq)
  · have hp : l.Pairwise (fun a b => a.1 ≠ b.1) := by
      rw [mapWF, List.Nodup, List.pairwise_map] at ho
      exact ho
    refine hp.imp ?_
    intro a b hab
    intro x hxa hxb
    simp only [List.map_map, List.mem_map] at hxa hxb
    obtain ⟨p1, hp1, he1⟩ := hxa
    obtain ⟨p2, hp2, he2⟩ := hxb
    apply hab
    have hx : (a.1, p1.1) = (b.1, p2.1) := by
      have ha1 : (a.1, p1.1) = x := he1
      have hb1 : (b.1, p2.1) = x := he2
      rw [ha1, hb1]
    injection hx with hx1 hx2

/-- The keys yielded by `iter` are pairwise distinct. -/
theorem iter_keys_nodup (m : StateMap E) (hwf : m.WF) :
    (m.iter.map Prod.fst).Nodup := by
  obtain ⟨hw, hm, ha, hi, ho, hoq⟩ := hwf
  unfold iter
  rw [List.map_append, List.map_append, List.map_append, List.map_append]
  have nwk := nodup_wk_keys m.well_known hw
  have nmem := nodup_tag_keys TYPE_MEMBERSHIP m.membership hm
  have nal := nodup_tag_keys TYPE_ALIASES m.aliases ha
  have ninv := nodup_tag_keys TYPE_THIRD_PARTY_INVITE m.invites hi
  have noth := nodup_others_keys m.others ho (fun q hq => (hoq q hq).1)
  have hwk_mem : ∀ x ∈ (m.well_known.map fun p => ((p.1.as_str, ""), p.2)).map Prod.fst,
      ∃ k : WellKnownEmptyKeys, x = (k.as_str, "") := by
    intro x hx
    simp only [List.map_map, List.mem_map] at hx
    obtain ⟨p, _, he⟩ := hx
    exact ⟨p.1, he.symm⟩
  have htag_mem : ∀ (tag : String) (l : List (String × E)) (x : String × String),
      x ∈ (l.map fun p => ((tag, p.1), p.2)).map Prod.fst → x.1 = tag := by
    intro tag l x hx
    simp only [List.map_map, List.mem_map] at hx
    obtain ⟨p, _, he⟩ := hx
    rw [← he]
    rfl
  have hoth_mem : ∀ x ∈ (m.others.flatMap fun q =>
      q.2.map fun p => ((q.1, p.1), p.2)).map Prod.fst,
      ∃ q ∈ m.others, ∃ p ∈ q.2, x = (q.1, p.1) := by
    intro x hx
    rw [List.map_flatMap] at hx
    simp only [List.mem_flatMap, List.map_map, List.mem_map] at hx
    obtain ⟨q, hq, p, hp, he⟩ := hx
    exact ⟨q, hq, p, hp, he.symm⟩
  have dwk : ∀ x, (∃ k : WellKnownEmptyKeys, x = (k.as_str, "")) →
      (x.1 = TYPE_MEMBERSHIP ∨ x.1 = TYPE_ALIASES ∨ x.1 = TYPE_THIRD_PARTY_INVITE ∨
        (∃ q ∈ m.others, ∃ p ∈ q.2, x = (q.1, p.1))) → False := by
    rintro x ⟨k, hk⟩ (h | h | h | ⟨q, hq, p, hp, he⟩)
    · exact as_str_ne_membership k (by rw [hk] at h; exact h)
    · exact as_str_ne_aliases k (by rw [hk] at h; exact h)
    · exact as_str_ne_invite k (by rw [hk] at h; exact h)
    · obtain ⟨_, _, _, _, hkeys⟩ := hoq q hq
      apply hkeys p hp
      rw [hk] at he
      injection he with he1 he2
      refine ⟨he2.symm, ?_⟩
      rw [← he1, from_str_as_str]
      rfl
  have dtag : ∀ (tag1 tag2 : String), tag1 ≠ tag2 → ∀ x : String × String,
      x.1 = tag1 → x.1 = tag2 → False := by
    intro tag1 tag2 hne x h1 h2
    exact hne (h1 ▸ h2 ▸ rfl)
  have dtag_oth : ∀ (tag : String), (∀ q ∈ m.others, q.1 ≠ tag) →
      ∀ x : String × String, x.1 = tag →
        (∃ q ∈ m.others, ∃ p ∈ q.2, x = (q.1, p.1)) → False := by
    rintro tag hne x hx ⟨q, hq, p, hp, he⟩
    apply hne q hq
    rw [he] at hx
    exact hx
  refine List.Nodup.append (List.Nodup.append (List.Nodup.append
    (List.Nodup.append nwk nmem ?_) nal ?_) ninv ?_) noth ?_
  · intro x hx1 hx2
    exact dwk x (hwk_mem x hx1) (Or.inl (htag_mem _ _ x hx2))
  · intro x hx1 hx2
    rcases List.mem_append.1 hx1 with hx1 | hx1
    · exact dwk x (hwk_mem x hx1) (Or.inr (Or.inl (htag_mem _ _ x hx2)))
    · exact dtag TYPE_MEMBERSHIP TYPE_ALIASES (by decide) x
        (htag_mem _ _ x hx1) (htag_mem _ _ x hx2)
  · intro x hx1 hx2
    rcases List.mem_append.1 hx1 with hx1 | hx1
    · rcases List.mem_append.1 hx1 with hx1 | hx1
      · exact dwk x (hwk_mem x hx1) (Or.inr (Or.inr (Or.inl (htag_mem _ _ x hx2))))
      · exact dtag TYPE_MEMBERSHIP TYPE_THIRD_PARTY_INVITE (by decide) x
          (htag_mem _ _ x hx1) (htag_mem _ _ x hx2)
    · exact dtag TYPE_ALIASES TYPE_THIRD_PARTY_INVITE (by decide) x
        (htag_mem _ _ x hx1) (htag_mem _ _ x hx2)
  · intro x hx1 hx2
    rcases List.mem_append.1 hx1 with hx1 | hx1
    · rcases List.mem_append.1 hx1 with hx1 | hx1
      · rcases List.mem_append.1 hx1 with hx1 | hx1
        · exact dwk x (hwk_mem x hx1) (Or.inr (Or.inr (Or.inr (hoth_mem x hx2))))
        · exact dtag_oth TYPE_MEMBERSHIP (fun q hq => (hoq q hq).2.1) x
            (htag_mem _ _ x hx1) (hoth_mem x hx2)
      · exact dtag_oth TYPE_ALIASES (fun q hq => (hoq q hq).2.2.1) x
          (htag_mem _ _ x hx1) (hoth_mem x hx2)
    · exact dtag_oth TYPE_THIRD_PARTY_INVITE (fun q hq => (hoq q hq).2.2.2.1) x
        (htag_mem _ _ x hx1) (hoth_mem x hx2)

theorem from_str_join_rules :
    WellKnownEmptyKeys.from_str TYPE_JOIN_RULES = some WellKnownEmptyKeys.JoinRules := by
  decide

/-- An entry is yielded by `iter_join_rules` exactly when `get` returns it at
type `m.room.join_rules`. -/
theorem mem_iter_join_rules_iff (m : StateMap E) (hwf : m.WF) (s : String) (v : E) :
    (s, v) ∈ m.iter_join_rules ↔ m.get TYPE_JOIN_RULES s = some v := by
  obtain ⟨hw, hm, ha, hi, ho, hoq⟩ := hwf
  unfold iter_join_rules
  constructor
  · intro hmem
    rcases List.mem_append.1 hmem with hx | hx
    · simp only [List.mem_map, Option.mem_toList, Option.mem_def] at hx
      obtain ⟨e, hjr, he⟩ := hx
      injection he with he1 he2
      subst he1
      subst he2
      have hc : (if ("" : String) = "" then WellKnownEmptyKeys.from_str TYPE_JOIN_RULES
          else none) = some WellKnownEmptyKeys.JoinRules := by
        rw [if_pos rfl, from_str_join_rules]
      rw [get_route_wk m _ _ _ hc]
      exact hjr
    · simp only [List.mem_flatMap, List.mem_map, Option.mem_toList, Option.mem_def] at hx
      obtain ⟨hh, hgo, p, hp, he⟩ := hx
      have hpe : p = (s, v) := by
        obtain ⟨p1, p2⟩ := p
        exact he
      subst hpe
      obtain ⟨hwfh, hn1, hn2, hn3, hkeys⟩ := hoq (TYPE_JOIN_RULES, hh) (mem_of_mapGet _ _ _ hgo)
      have hc : (if s = "" then WellKnownEmptyKeys.from_str TYPE_JOIN_RULES else none) = none := by
        refine (route_scrutinee_none_iff _ _).2 ?_
        rintro ⟨hs0, -⟩
        exact hkeys (s, v) hp ⟨hs0, by rw [from_str_join_rules]; rfl⟩
      rw [get_route_other m _ _ hc hn1 hn2 hn3, hgo, Option.some_bind]
      exact mapGet_of_mem _ _ _ hwfh hp
  · intro hget
    by_cases hs : s = ""
    · subst hs
      have hc : (if ("" : String) = "" then WellKnownEmptyKeys.from_str TYPE_JOIN_RULES
          else none) = some WellKnownEmptyKeys.JoinRules := by
        rw [if_pos rfl, from_str_join_rules]
      rw [get_route_wk m _ _ _ hc] at hget
      refine List.mem_append.2 (Or.inl ?_)
      rw [hget]
      simp
    · have hc : (if s = "" then WellKnownEmptyKeys.from_str TYPE_JOIN_RULES else none) = none :=
        if_neg hs
      rw [get_route_other m _ _ hc (by decide) (by decide) (by decide)] at hget
      cases hgo : mapGet m.others TYPE_JOIN_RULES with
      | some hh =>
          rw [hgo, Option.some_bind] at hget
          refine List.mem_append.2 (Or.inr ?_)
          simp only [List.mem_flatMap, List.mem_map, Option.mem_toList, Option.mem_def]
          exact ⟨hh, rfl, (s, v), mem_of_mapGet _ _ _ hget, rfl⟩
      | none =>
          rw [hgo] at hget
          simp at hget

/-- The state keys yielded by `iter_join_rules` are pairwise distinct. -/
theorem iter_join_rules_keys_nodup (m : StateMap E) (hwf : m.WF) :
    (m.iter_join_rules.map Prod.fst).Nodup := by
  obtain ⟨hw, hm, ha, hi, ho, hoq⟩ := hwf
  unfold iter_join_rules
  rw [List.map_append]
  cases hgo : mapGet m.others TYPE_JOIN_RULES with
  | none =>
      cases hjr : mapGet m.well_known WellKnownEmptyKeys.JoinRules <;> simp
  | some hh =>
      obtain ⟨hwfh, -, -, -, hkeys⟩ := hoq (TYPE_JOIN_RULES, hh) (mem_of_mapGet _ _ _ hgo)
      have hinner : ((hh.map fun p : String × E => (p.1, p.2)).map Prod.fst).Nodup := by
        rw [List.map_map]
        have he : ((Prod.fst ∘ fun p : String × E => (p.1, p.2)) : String × E → String)
            = Prod.fst := rfl
        rw [he]
        exact hwfh
      have hnotin : ("" : String) ∉ (hh.map fun p : String × E => (p.1, p.2)).map Prod.fst := by
        intro hmem
        simp only [List.map_map, List.mem_map] at hmem
        obtain ⟨p, hp, he⟩ := hmem
        exact hkeys p hp ⟨he, by rw [from_str_join_rules]; rfl⟩
      cases hjr : mapGet m.well_known WellKnownEmptyKeys.JoinRules with
      | none => simpa using hinner
      | some v =>
          simp only [Option.toList_some, List.map_cons, List.map_nil, List.singleton_append,
            List.nodup_cons]
          exact ⟨by simpa using hnotin, by simpa using hinner⟩

/-- Spec-side definition for the bulk-construction claim: the value attached
to the last pair in the sequence carrying the given key ("last one wins"). -/
def lastOneWins (l : List ((String × String) × E)) (k : String × String) : Option E :=
  match l with
  | [] => none
  | p :: rest =>
      match lastOneWins rest k with
      | some v => some v
      | none => if p.1 = k then some p.2 else none

theorem extend_get (m : StateMap E) (l : List ((String × String) × E)) (t s : String) :
    (m.extend l).get t s =
      match lastOneWins l (t, s) with
      | some v => some v
      | none => m.get t s := by
  induction l generalizing m with
  | nil => rfl
  | cons p rest ih =>
      obtain ⟨⟨pt, ps⟩, pv⟩ := p
      have hstep : m.extend (((pt, ps), pv) :: rest) = (m.insert pt ps pv).extend rest := rfl
      rw [hstep, ih]
      cases hlw : lastOneWins rest (t, s) with
      | some v => simp [lastOneWins, hlw]
      | none =>
          simp only [lastOneWins, hlw]
          by_cases hp : (pt, ps) = (t, s)
          · rw [if_pos hp]
            injection hp with hp1 hp2
            subst hp1
            subst hp2
            rw [get_insert_self]
          · rw [if_neg hp]
            exact get_insert_ne m pt ps t s pv (fun he => hp he.symm)

theorem from_iter_eq_extend (l : List ((String × String) × E)) :
    from_iter l = StateMap.extend new l := rfl

theorem extend_len_of_fresh (l : List ((String × String) × E)) (m : StateMap E)
    (hnd : (l.map Prod.fst).Nodup) (hfresh : ∀ p ∈ l, m.get p.1.1 p.1.2 = none) :
    (m.extend l).len = m.len + l.length := by
  induction l generalizing m with
  | nil => simp [extend]
  | cons p rest ih =>
      obtain ⟨⟨pt, ps⟩, pv⟩ := p
      rw [List.map_cons, List.nodup_cons] at hnd
      have hstep : m.extend (((pt, ps), pv) :: rest) = (m.insert pt ps pv).extend rest := rfl
      have hfresh2 : ∀ q ∈ rest, (m.insert pt ps pv).get q.1.1 q.1.2 = none := by
        intro q hq
        rw [get_insert_ne]
        · exact hfresh q (List.mem_cons_of_mem _ hq)
        · intro he
          apply hnd.1
          have hq1 : q.1 = (pt, ps) := by
            obtain ⟨⟨qt, qs⟩, qv⟩ := q
            simpa using he
          rw [← hq1]
          exact List.mem_map.2 ⟨q, hq, rfl⟩
      rw [hstep, ih _ hnd.2 hfresh2, len_insert]
      have h0 := hfresh ((pt, ps), pv) (List.mem_cons_self _ _)
      simp only at h0
      rw [h0]
      simp only [Option.isSome_none, Bool.false_eq_true, if_false, List.length_cons]
      omega

/-! ## Claim theorems -/

/-- C1: for every type string `t`, state key `s` and value `v`, `insert`
followed by `get` at the same key returns `some v`, on any starting map and
whichever of the five buckets the key routes to. -/
theorem claim_C1_insert_get (m : StateMap E) (t s : String) (v : E) :
    (m.insert t s v).get t s = some v :=
  get_insert_self m t s v

/-- C2: on a well-formed map holding `v1` at `(t, s)`, `add_or_remove` with a
different candidate `v2` returns `some v1` and leaves the slot empty: `get`
afterwards returns `none`, not `v2`. -/
theorem claim_C2_conflict [DecidableEq E] (m : StateMap E) (t s : String) (v1 v2 : E)
    (hwf : m.WF) (hv : m.get t s = some v1) (hne : v2 ≠ v1) :
    (m.add_or_remove t s v2).2 = some v1 ∧
      (m.add_or_remove t s v2).1.get t s = none :=
  add_or_remove_conflict m t s v1 v2 hwf hv hne

theorem claim_C2_conflict_witness :
    ((((new : StateMap Nat).insert "bar" "baz" 1).add_or_remove "bar" "baz" 2).2 = some 1) ∧
      ((((new : StateMap Nat).insert "bar" "baz" 1).add_or_remove "bar" "baz" 2).1.get
        "bar" "baz" = none) :=
  claim_C2_conflict ((new : StateMap Nat).insert "bar" "baz" 1) "bar" "baz" 1 2
    (by decide) (by decide) (by decide)

/-- C3: `add_or_remove` with a value equal to the stored one returns `none` and
leaves the map unchanged (so repeated calls are idempotent and the stored value
stays `v`); on an absent slot it inserts the value and returns `none`. -/
theorem claim_C3_agree_vacant [DecidableEq E] (m : StateMap E) (t s : String) (v : E) :
    (m.get t s = some v → m.add_or_remove t s v = (m, none)) ∧
      (m.get t s = none → m.add_or_remove t s v = (m.insert t s v, none)) :=
  ⟨add_or_remove_agree m t s v, add_or_remove_vacant m t s v⟩

theorem claim_C3_agree_vacant_witness :
    (((new : StateMap Nat).insert "a" "b" 5).add_or_remove "a" "b" 5 =
      ((new : StateMap Nat).insert "a" "b" 5, none)) ∧
    ((new : StateMap Nat).add_or_remove "m.room.create" "" 7 =
      ((new : StateMap Nat).insert "m.room.create" "" 7, none)) :=
  ⟨(claim_C3_agree_vacant ((new : StateMap Nat).insert "a" "b" 5) "a" "b" 5).1 (by decide),
   (claim_C3_agree_vacant (new : StateMap Nat) "m.room.create" "" 7).2 (by decide)⟩

/-- C4: on a well-formed map, `iter` yields every live entry exactly once: its
keys are pairwise distinct, and an entry is yielded if and only if `get`
returns it. -/
theorem claim_C4_iter_complete (m : StateMap E) (hwf : m.WF) :
    (m.iter.map Prod.fst).Nodup ∧
      ∀ t s v, (((t, s), v) ∈ m.iter ↔ m.get t s = some v) :=
  ⟨iter_keys_nodup m hwf, fun t s v => mem_iter_iff m hwf t s v⟩

theorem claim_C4_iter_complete_witness :
    ((((new : StateMap Nat).insert "m.room.power_levels" "" 1).insert
        "m.room.member" "u" 2).iter.map Prod.fst).Nodup ∧
    ((("m.room.power_levels", ""), 1) ∈
        (((new : StateMap Nat).insert "m.room.power_levels" "" 1).insert
          "m.room.member" "u" 2).iter ↔
      (((new : StateMap Nat).insert "m.room.power_levels" "" 1).insert
          "m.room.member" "u" 2).get "m.room.power_levels" "" = some 1) := by
  have h := claim_C4_iter_complete
    (((new : StateMap Nat).insert "m.room.power_levels" "" 1).insert "m.room.member" "u" 2)
    (by decide)
  exact ⟨h.1, h.2 "m.room.power_levels" "" 1⟩

/-- C5: `len` equals the number of live entries (`iter` length, with pairwise
distinct keys on a well-formed map); `is_empty` holds iff `len = 0`; inserting
a fresh key grows `len` by one while overwriting an existing key leaves it
unchanged; loading `N` pairs with distinct keys into an empty map gives
`len = N`. -/
theorem claim_C5_len (m : StateMap E) (t s : String) (v w : E)
    (l : List ((String × String) × E)) (hwf : m.WF) :
    (m.is_empty = true ↔ m.len = 0) ∧
    m.len = m.iter.length ∧
    (m.iter.map Prod.fst).Nodup ∧
    ((m.insert t s v).len = if m.contains_key t s then m.len else m.len + 1) ∧
    (((m.insert t s v).insert t s w).len = (m.insert t s v).len) ∧
    ((l.map Prod.fst).Nodup → (from_iter l).len = l.length) := by
  refine ⟨?_, len_eq_iter_length m, iter_keys_nodup m hwf, ?_, ?_, ?_⟩
  · unfold is_empty
    simp
  · exact len_insert m t s v
  · rw [len_insert (m.insert t s v) t s w, get_insert_self]
    simp
  · intro hnd
    rw [from_iter_eq_extend,
      extend_len_of_fresh l new hnd (fun p _ => get_new p.1.1 p.1.2)]
    simp [len, new]

theorem claim_C5_len_witness :
    ((new : StateMap Nat).is_empty = true ↔ (new : StateMap Nat).len = 0) ∧
    (new : StateMap Nat).len = (new : StateMap Nat).iter.length ∧
    ((new : StateMap Nat).iter.map Prod.fst).Nodup ∧
    (((new : StateMap Nat).insert "x" "y" 1).len =
      if (new : StateMap Nat).contains_key "x" "y" then (new : StateMap Nat).len
      else (new : StateMap Nat).len + 1) ∧
    ((((new : StateMap Nat).insert "x" "y" 1).insert "x" "y" 2).len =
      ((new : StateMap Nat).insert "x" "y" 1).len) ∧
    ((([((("k1" : String), ("" : String)), (5 : Nat))].map Prod.fst).Nodup →
      (from_iter [((("k1" : String), ("" : String)), (5 : Nat))]).len =
        [((("k1" : String), ("" : String)), (5 : Nat))].length)) :=
  claim_C5_len new "x" "y" 1 2 [(("k1", ""), 5)] (by decide)

/-- C6: inserting at `("m.room.member", "")` lands in the membership bucket
under the empty string: `get` and `get_membership ""` both return the value,
and `get_well_known` is unchanged for every variant (membership is not a
well-known empty-key type). -/
theorem claim_C6_membership_empty_key (m : StateMap E) (v : E) :
    (m.insert TYPE_MEMBERSHIP "" v).get TYPE_MEMBERSHIP "" = some v ∧
    (m.insert TYPE_MEMBERSHIP "" v).get_membership "" = some v ∧
    ∀ k, (m.insert TYPE_MEMBERSHIP "" v).get_well_known k = m.get_well_known k := by
  have hins : m.insert TYPE_MEMBERSHIP "" v
      = { m with membership := mapInsert m.membership "" v } := by
    unfold insert
    rw [scrut_mem_none "", if_pos rfl]
  refine ⟨get_insert_self m _ _ v, ?_, ?_⟩
  · rw [hins]
    unfold get_membership
    exact mapGet_insert_self _ _ _
  · intro k
    rw [hins]
    rfl

/-- C7: building a map from a sequence of pairs (`FromIterator`) is the
sequential-insert fold from the empty map, `extend` is the same fold on an
existing map, and lookups after either resolve duplicate keys last-one-wins,
falling back to the original map when the key never occurs. -/
theorem claim_C7_bulk_construction (m : StateMap E)
    (l : List ((String × String) × E)) (t s : String) :
    from_iter l = StateMap.extend new l ∧
    ((m.extend l).get t s = match lastOneWins l (t, s) with
      | some v => some v
      | none => m.get t s) :=
  ⟨from_iter_eq_extend l, extend_get m l t s⟩

/-- C8: `as_str` and `from_str` are mutually inverse: `from_str (as_str k)`
recovers `k`, any successful `from_str t = some k` has `as_str k = t`, and
`from_str` returns `none` exactly for strings outside the eleven well-known
type strings. -/
theorem claim_C8_str_conversions :
    (∀ k : WellKnownEmptyKeys, WellKnownEmptyKeys.from_str k.as_str = some k) ∧
    (∀ (t : String) (k : WellKnownEmptyKeys),
      WellKnownEmptyKeys.from_str t = some k → k.as_str = t) ∧
    (∀ t : String, WellKnownEmptyKeys.from_str t = none ↔
      ∀ k : WellKnownEmptyKeys, k.as_str ≠ t) := by
  refine ⟨from_str_as_str, as_str_of_from_str, ?_⟩
  intro t
  constructor
  · intro hn k he
    rw [← he, from_str_as_str] at hn
    exact Option.noConfusion hn
  · intro hall
    cases hf : WellKnownEmptyKeys.from_str t with
    | none => rfl
    | some k => exact absurd (as_str_of_from_str t k hf) (hall k)

theorem claim_C8_str_conversions_witness :
    WellKnownEmptyKeys.Create.as_str = "m.room.create" :=
  claim_C8_str_conversions.2.1 "m.room.create" WellKnownEmptyKeys.Create (by decide)

/-- C9: on a well-formed map, `iter_join_rules` yields exactly the entries
`get` would return at type `m.room.join_rules` — the well-known entry under
the empty state key plus the `others`-bucket entries under that type — each
exactly once. -/
theorem claim_C9_iter_join_rules (m : StateMap E) (hwf : m.WF) :
    (m.iter_join_rules.map Prod.fst).Nodup ∧
    ∀ s v, ((s, v) ∈ m.iter_join_rules ↔ m.get TYPE_JOIN_RULES s = some v) :=
  ⟨iter_join_rules_keys_nodup m hwf, fun s v => mem_iter_join_rules_iff m hwf s v⟩

theorem claim_C9_iter_join_rules_witness :
    ((((new : StateMap Nat).insert "m.room.join_rules" "" 7).insert
        "m.room.join_rules" "x" 9).iter_join_rules.map Prod.fst).Nodup ∧
    (("x", 9) ∈ (((new : StateMap Nat).insert "m.room.join_rules" "" 7).insert
        "m.room.join_rules" "x" 9).iter_join_rules ↔
      (((new : StateMap Nat).insert "m.room.join_rules" "" 7).insert
        "m.room.join_rules" "x" 9).get TYPE_JOIN_RULES "x" = some 9) := by
  have h := claim_C9_iter_join_rules
    (((new : StateMap Nat).insert "m.room.join_rules" "" 7).insert "m.room.join_rules" "x" 9)
    (by decide)
  exact ⟨h.1, h.2 "x" 9⟩

/-- C10: an insert affects only its own logical key: for any other key,
`get` after the insert returns what it returned before, even when the keys
share a type string or a bucket. -/
theorem claim_C10_insert_frame (m : StateMap E) (t1 s1 t2 s2 : String) (v : E)
    (hne : (t2, s2) ≠ (t1, s1)) :
    (m.insert t1 s1 v).get t2 s2 = m.get t2 s2 :=
  get_insert_ne m t1 s1 t2 s2 v hne

theorem claim_C10_insert_frame_witness :
    (((new : StateMap Nat).insert "m.room.member" "" 1).insert "m.room.member" "u" 2).get
        "m.room.member" "" =
      ((new : StateMap Nat).insert "m.room.member" "" 1).get "m.room.member" "" :=
  claim_C10_insert_frame ((new : StateMap Nat).insert "m.room.member" "" 1)
    "m.room.member" "u" "m.room.member" "" 2 (by decide)

end StateMap

end StateMapModel
